import Mathlib

/-!
Shallow embedding of the DPoR consensus core of the `chain` repository:

* `src/consensus/dpor/backend/pbft_fsm.go` — the PBFT validator finite
  state machine (`DporSm` and its methods, the `fsm` transition function);
* `src/consensus/dpor/election/elect.go` — the committee election
  (`Elect2`, `randomSelectByRpt`, `findHit`, `sumOfFirstN`);
* `src/admission/admission.go` — the admission controller
  (`FundForRNode`).

Modelling conventions:

* Go machine integers (`uint64`, `int64`) are modelled as `Nat` / `Int`;
  none of the verified properties live near an overflow boundary.
* 20-byte addresses, 32-byte hashes and 65-byte signatures are opaque to
  the verified code and are modelled as `Nat`.
* Go maps keyed by address are modelled as association lists with
  overwrite-on-insert (`sigStateUpsert`); map iteration is only ever used
  for counting or membership in the verified code, so iteration order is
  irrelevant.
* The reader/writer locks of `DporSm` and the mutexes of
  `AdmissionControl` are elided: all verified properties are about the
  serialized (single-invoker) semantics the spec describes.
* Go `nil`-pointer dereferences, out-of-range indexing and failed type
  assertions are modelled explicitly as panic outcomes (`Option.none`
  results or dedicated panic constructors), never as default values.
* External collaborators (the chain service, contract backend) are
  records of pure functions supplied as parameters, mirroring the
  interfaces the Go code consumes.
* The bounded ARC block cache is modelled as an association list without
  eviction; eviction only ever removes entries and none of the verified
  properties depend on capacity.
-/

/-- Decidable equality for `Except`, used to evaluate concrete
outcomes of the fallible operations. -/
instance {ε α : Type} [DecidableEq ε] [DecidableEq α] : DecidableEq (Except ε α) := by
  intro a b
  cases a <;> cases b
  case error.error x y =>
    exact if h : x = y then isTrue (by rw [h]) else isFalse (by intro c; cases c; exact h rfl)
  case ok.ok x y =>
    exact if h : x = y then isTrue (by rw [h]) else isFalse (by intro c; cases c; exact h rfl)
  case error.ok x y => exact isFalse (by intro c; cases c)
  case ok.error x y => exact isFalse (by intro c; cases c)

/-- Account address (20 bytes in the source, opaque here). -/
abbrev Address := Nat

/-- Block hash (32 bytes in the source, opaque here). -/
abbrev BHash := Nat

/-- A 65-byte DPoR signature slot content, opaque here. -/
abbrev Sig := Nat

/-- `consensus.State`: the five-valued PBFT mode variable; also used as
the phase tag passed to `SignHeader` / `EcrecoverSigs`. -/
inductive ConsState where
  | Idle
  | Preprepared
  | Prepared
  | ImpeachPreprepared
  | ImpeachPrepared
deriving DecidableEq, Repr

/-- `types.Header`: the fields the FSM observes — height (`Number`),
canonical hash (excluding signature slots), the DPoR validator list and
the parallel signature slots (`none` = empty slot). -/
structure Header where
  number : Nat
  hash : BHash
  validators : List Address
  sigs : List (Option Sig)
deriving DecidableEq, Repr

/-- `types.Block`: a header plus an opaque payload; `b.Hash()` and
`b.NumberU64()` delegate to the header. -/
structure Block where
  header : Header
  payload : Nat
deriving DecidableEq, Repr

/-- `blockSigItem`: the value stored per validator in a signature map. -/
structure BlockSigItem where
  hash : BHash
  sig : Sig
deriving DecidableEq, Repr

/-- `sigState`: Go `map[common.Address]*blockSigItem`, as an association
list with overwrite-on-insert. -/
abbrev SigState := List (Address × BlockSigItem)

/-- Map lookup: `sm.prepareSigState[v]` (missing key = Go `nil`). -/
def sigStateLookup (s : SigState) (a : Address) : Option BlockSigItem :=
  (s.find? (fun p => p.1 == a)).map (·.2)

/-- Map assignment `state[s] = item`: overwrite the existing binding or
append a fresh one. -/
def sigStateUpsert (s : SigState) (a : Address) (item : BlockSigItem) : SigState :=
  if s.any (fun p => p.1 == a) then
    s.map (fun p => if p.1 == a then (a, item) else p)
  else
    s ++ [(a, item)]

/-- The `for i, s := range signers { state[s] = {hash, sigs[i]} }` merge
loop shared by `prepareMsgPlus` and `commitMsgPlus`. -/
def mergeSigs (s : SigState) (hash : BHash) (pairs : List (Address × Sig)) : SigState :=
  pairs.foldl (fun st p => sigStateUpsert st p.1 ⟨hash, p.2⟩) s

/-- The typed errors of the FSM (pbft_fsm.go lines 50-60, plus
`consensus.ErrInvalidSigners` and the opaque error returned by
`EcrecoverSigs`, which the spec calls SignatureRecoveryFailure). -/
inductive FsmError where
  | blockTooOld
  | wrongDataType
  | faultyBlock
  | wrongIdleInput
  | wrongPrepreparedInput
  | wrongPreparedInput
  | wrongImpeachPrepreparedInput
  | wrongImpeachPreparedInput
  | blockNotExist
  | recoveryFailure
  | invalidSigners
deriving DecidableEq, Repr

/-- `DporService`: the external chain service consumed by the FSM,
as a record of pure functions. `validateBlock` returns `true` when Go's
`ValidateBlock` returns a `nil` error; `ecrecoverSigs` returns the
recovered (signers, sigs) or an opaque error; `createImpeachBlock`
returns `none` on error. -/
structure DporService where
  validateBlock : Block → Bool
  ecrecoverSigs : Header → ConsState → Except Unit (List Address × List Sig)
  validatorsOf : Nat → List Address
  signHeader : Header → ConsState → Header
  createImpeachBlock : Option Block

/-- The mutable fields of `DporSm` (state variable excluded: the `fsm`
function threads it separately, as the Go code does). -/
structure SmData where
  prepareSigState : SigState
  commitSigState : SigState
  f : Nat
  bcache : List (BHash × Block)
  lastHeight : Nat
deriving DecidableEq, Repr

/-- Block-cache lookup (`sm.bcache.Get`). -/
def bcacheGet (c : List (BHash × Block)) (h : BHash) : Option Block :=
  (c.find? (fun p => p.1 == h)).map (·.2)

/-- Block-cache insert (`sm.bcache.Add`); ARC eviction is elided. -/
def bcacheAdd (c : List (BHash × Block)) (h : BHash) (b : Block) : List (BHash × Block) :=
  if c.any (fun p => p.1 == h) then
    c.map (fun p => if p.1 == h then (h, b) else p)
  else
    (h, b) :: c

/-- `refreshWhenNewerHeight`: reset both signature maps and advance
`lastHeight` when a strictly greater height is observed. -/
def refreshWhenNewerHeight (d : SmData) (height : Nat) : SmData :=
  if d.lastHeight < height then
    { d with lastHeight := height, prepareSigState := [], commitSigState := [] }
  else
    d

/-- `verifyBlock`: whether `service.ValidateBlock` accepts the block. -/
def verifyBlock (svc : DporService) (b : Block) : Bool :=
  svc.validateBlock b

/-- `commitCertificate`: ≥ 2f+1 entries of the commit map carry the
queried header's hash. -/
def commitCertificate (d : SmData) (h : Header) : Bool :=
  2 * d.f + 1 ≤ (d.commitSigState.filter (fun p => p.2.hash == h.hash)).length

/-- `prepareCertificate`: ≥ 2f+1 entries of the prepare map carry the
queried header's hash. -/
def prepareCertificate (d : SmData) (h : Header) : Bool :=
  2 * d.f + 1 ≤ (d.prepareSigState.filter (fun p => p.2.hash == h.hash)).length

/-- `commitMsgPlus`: refresh on newer height, recover the commit-phase
signatures, require every signer to be a validator of the header's
height, then merge into the commit map. The refresh side effect persists
even when recovery or the signer check fails, exactly as in the Go code
(the method mutates `sm` before the checks). Returns the error (if any)
together with the resulting data. -/
def commitMsgPlus (svc : DporService) (d : SmData) (h : Header) :
    Option FsmError × SmData :=
  let d1 := refreshWhenNewerHeight d h.number
  match svc.ecrecoverSigs h ConsState.Prepared with
  | Except.error _ => (some FsmError.recoveryFailure, d1)
  | Except.ok (signers, sigs) =>
    let validators := svc.validatorsOf h.number
    if signers.all (fun s => validators.contains s) then
      (none, { d1 with commitSigState := mergeSigs d1.commitSigState h.hash (signers.zip sigs) })
    else
      (some FsmError.invalidSigners, d1)

/-- `prepareMsgPlus`: identical to `commitMsgPlus` but merging into the
prepare map (the source recovers with phase `consensus.Prepared` in both
functions). -/
def prepareMsgPlus (svc : DporService) (d : SmData) (h : Header) :
    Option FsmError × SmData :=
  let d1 := refreshWhenNewerHeight d h.number
  match svc.ecrecoverSigs h ConsState.Prepared with
  | Except.error _ => (some FsmError.recoveryFailure, d1)
  | Except.ok (signers, sigs) =>
    let validators := svc.validatorsOf h.number
    if signers.all (fun s => validators.contains s) then
      (none, { d1 with prepareSigState := mergeSigs d1.prepareSigState h.hash (signers.zip sigs) })
    else
      (some FsmError.invalidSigners, d1)

/-- `composeCommitMsg`: reject when `lastHeight > h.Number` (strict),
else refresh and sign the header at phase Prepared. The
`UpdateFinalSigsCache` forwarding writes to an external cache and is
elided. -/
def composeCommitMsg (svc : DporService) (d : SmData) (h : Header) :
    Except FsmError Header × SmData :=
  if h.number < d.lastHeight then
    (Except.error FsmError.blockTooOld, d)
  else
    let d1 := refreshWhenNewerHeight d h.number
    (Except.ok (svc.signHeader h ConsState.Prepared), d1)

/-- `composePrepareMsg`: reject when `lastHeight >= b.NumberU64()`,
else refresh, cache the block and sign its header at phase Preprepared.
The `UpdatePrepareSigsCache` forwarding is elided. -/
def composePrepareMsg (svc : DporService) (d : SmData) (b : Block) :
    Except FsmError Header × SmData :=
  if b.header.number ≤ d.lastHeight then
    (Except.error FsmError.blockTooOld, d)
  else
    let d1 := refreshWhenNewerHeight d b.header.number
    let d2 := { d1 with bcache := bcacheAdd d1.bcache b.header.hash b }
    (Except.ok (svc.signHeader b.header ConsState.Preprepared), d2)

/-- The two Go panics reachable inside `composeValidateMsg`'s make-up
loop: indexing `Sigs[i]` out of range, and dereferencing the `nil`
map entry `sm.commitSigState[v]`. -/
inductive CvPanic where
  | indexOutOfRange
  | nilMapEntry
deriving DecidableEq, Repr

/-- Outcome of `composeValidateMsg`: a Go panic, a returned error, or
the reconstructed block. -/
inductive CvResult where
  | panic (which : CvPanic)
  | err (e : FsmError)
  | ok (b : Block)
deriving DecidableEq, Repr

/-- The `for i, v := range validators` make-up loop of
`composeValidateMsg`: for each empty slot, dereference
`sm.commitSigState[v]` (panicking when the entry is absent) and splice
the recorded signature in when its hash matches. -/
def fillSigsLoop (st : SigState) (hash : BHash) :
    List (Nat × Address) → List (Option Sig) → Except CvPanic (List (Option Sig))
  | [], sigs => Except.ok sigs
  | (i, v) :: rest, sigs =>
    match sigs.get? i with
    | none => Except.error CvPanic.indexOutOfRange
    | some (some _) => fillSigsLoop st hash rest sigs
    | some none =>
      match sigStateLookup st v with
      | none => Except.error CvPanic.nilMapEntry
      | some item =>
        if item.hash == hash then
          fillSigsLoop st hash rest (sigs.set i (some item.sig))
        else
          fillSigsLoop st hash rest sigs

/-- `composeValidateMsg`: fetch the block from the cache
(`errBlockNotExist` on miss), then run the signature make-up loop over
the header's validator list and the cached block's slots. -/
def composeValidateMsg (d : SmData) (h : Header) : CvResult :=
  match bcacheGet d.bcache h.hash with
  | none => CvResult.err FsmError.blockNotExist
  | some theBlock =>
    match fillSigsLoop d.commitSigState h.hash h.validators.enum theBlock.header.sigs with
    | Except.error p => CvResult.panic p
    | Except.ok sigs =>
      CvResult.ok { theBlock with header := { theBlock.header with sigs := sigs } }

/-- `proposeImpeachBlock`: `CreateImpeachBlock` via the service (`none`
on error), then sign the impeach block's header at phase Preprepared. -/
def proposeImpeachBlock (svc : DporService) : Option Block :=
  match svc.createImpeachBlock with
  | none => none
  | some b => some { b with header := svc.signHeader b.header ConsState.Preprepared }

/-- `impeachCommitCertificate` delegates to `commitCertificate`. -/
def impeachCommitCertificate (d : SmData) (h : Header) : Bool :=
  commitCertificate d h

/-- `composeImpeachValidateMsg` delegates to `composeValidateMsg`. -/
def composeImpeachValidateMsg (d : SmData) (h : Header) : CvResult :=
  composeValidateMsg d h

/-- `impeachCommitMsgPlus` delegates to `commitMsgPlus`. -/
def impeachCommitMsgPlus (svc : DporService) (d : SmData) (h : Header) :
    Option FsmError × SmData :=
  commitMsgPlus svc d h

/-- `impeachPrepareCertificate` delegates to `prepareCertificate`. -/
def impeachPrepareCertificate (d : SmData) (h : Header) : Bool :=
  prepareCertificate d h

/-- `impeachPrepareMsgPlus` delegates to `prepareMsgPlus`. -/
def impeachPrepareMsgPlus (svc : DporService) (d : SmData) (h : Header) :
    Option FsmError × SmData :=
  prepareMsgPlus svc d h

/-- FSM action enumerator. -/
inductive action where
  | noAction
  | broadcastMsgAction
  | insertBlockAction
  | broadcastAndInsertBlockAction
deriving DecidableEq, Repr

/-- FSM output data-type enumerator. -/
inductive dataType where
  | noType
  | headerType
  | blockType
  | impeachBlockType
deriving DecidableEq, Repr

/-- FSM message-code enumerator. -/
inductive msgCode where
  | noMsgCode
  | preprepareMsgCode
  | prepareMsgCode
  | commitMsgCode
  | validateMsgCode
  | impeachPreprepareMsgCode
  | impeachPrepareMsgCode
  | impeachCommitMsgCode
  | impeachValidateMsgCode
deriving DecidableEq, Repr

/-- The Go `interface{}` input of `fsm`: dynamically a header or a
block. -/
abbrev GoVal := Header ⊕ Block

/-- The six-component return value of `fsm` (the state-machine data is
threaded separately). `output = none` models a `nil` interface value. -/
structure FsmTuple where
  output : Option GoVal
  act : action
  dtype : dataType
  msg : msgCode
  state : ConsState
  err : Option FsmError
deriving DecidableEq, Repr

/-- The state/message dispatch of `fsm` after the input type switch.
`inp` is the original `interface{}` value (some branches return it
whole), `iH`/`iB` the values of the local `inputHeader`/`inputBlock`
variables (`none` = Go `nil`). A `none` result is a Go panic (calling a
method on a `nil` header or block). -/
def fsmBody (svc : DporService) (d : SmData) (inp : GoVal)
    (iH : Option Header) (iB : Option Block) (msg : msgCode) (state : ConsState) :
    Option (FsmTuple × SmData) :=
  match state with
  | ConsState.Idle =>
    match msg with
    | msgCode.validateMsgCode =>
      some (⟨iB.map Sum.inr, action.insertBlockAction, dataType.blockType,
             msgCode.noMsgCode, ConsState.Idle, none⟩, d)
    | msgCode.commitMsgCode =>
      match iH with
      | none => none
      | some h =>
        if commitCertificate d h then
          match composeValidateMsg d h with
          | CvResult.panic _ => none
          | CvResult.err e =>
            some (⟨none, action.noAction, dataType.noType, msgCode.noMsgCode,
                   ConsState.Idle, some e⟩, d)
          | CvResult.ok b =>
            some (⟨some (Sum.inr b), action.broadcastAndInsertBlockAction,
                   dataType.blockType, msgCode.validateMsgCode, ConsState.Idle, none⟩, d)
        else
          match commitMsgPlus svc d h with
          | (some e, d1) =>
            some (⟨none, action.noAction, dataType.noType, msgCode.noMsgCode,
                   ConsState.Idle, some e⟩, d1)
          | (none, d1) =>
            some (⟨some inp, action.noAction, dataType.noType, msgCode.noMsgCode,
                   ConsState.Idle, none⟩, d1)
    | msgCode.prepareMsgCode =>
      match iH with
      | none => none
      | some h =>
        if prepareCertificate d h then
          match composeCommitMsg svc d h with
          | (Except.error e, d1) =>
            some (⟨none, action.noAction, dataType.noType, msgCode.noMsgCode,
                   ConsState.Idle, some e⟩, d1)
          | (Except.ok h2, d1) =>
            some (⟨some (Sum.inl h2), action.broadcastMsgAction, dataType.headerType,
                   msgCode.commitMsgCode, ConsState.Prepared, none⟩, d1)
        else
          match prepareMsgPlus svc d h with
          | (some e, d1) =>
            some (⟨none, action.noAction, dataType.noType, msgCode.noMsgCode,
                   ConsState.Idle, some e⟩, d1)
          | (none, d1) =>
            some (⟨some inp, action.noAction, dataType.noType, msgCode.noMsgCode,
                   ConsState.Idle, none⟩, d1)
    | msgCode.preprepareMsgCode =>
      match iB with
      | none => none
      | some b =>
        if verifyBlock svc b then
          match composePrepareMsg svc d b with
          | (Except.error e, d1) =>
            some (⟨none, action.noAction, dataType.noType, msgCode.noMsgCode,
                   ConsState.Idle, some e⟩, d1)
          | (Except.ok h2, d1) =>
            some (⟨some (Sum.inl h2), action.broadcastMsgAction, dataType.headerType,
                   msgCode.prepareMsgCode, ConsState.Preprepared, none⟩, d1)
        else
          some (⟨(proposeImpeachBlock svc).map Sum.inr, action.insertBlockAction,
                 dataType.blockType, msgCode.impeachPrepareMsgCode,
                 ConsState.ImpeachPreprepared, some FsmError.faultyBlock⟩, d)
    | msgCode.impeachValidateMsgCode =>
      some (⟨iB.map Sum.inr, action.insertBlockAction, dataType.blockType,
             msgCode.noMsgCode, ConsState.Idle, none⟩, d)
    | msgCode.impeachCommitMsgCode =>
      match iH with
      | none => none
      | some h =>
        if impeachCommitCertificate d h then
          match composeImpeachValidateMsg d h with
          | CvResult.panic _ => none
          | CvResult.err e =>
            some (⟨none, action.noAction, dataType.noType, msgCode.noMsgCode,
                   ConsState.Idle, some e⟩, d)
          | CvResult.ok b =>
            some (⟨some (Sum.inr b), action.broadcastAndInsertBlockAction,
                   dataType.blockType, msgCode.impeachValidateMsgCode, ConsState.Idle, none⟩, d)
        else
          match impeachCommitMsgPlus svc d h with
          | (some e, d1) =>
            some (⟨none, action.noAction, dataType.noType, msgCode.noMsgCode,
                   ConsState.Idle, some e⟩, d1)
          | (none, d1) =>
            some (⟨some (Sum.inl h), action.noAction, dataType.noType, msgCode.noMsgCode,
                   ConsState.Idle, none⟩, d1)
    | msgCode.impeachPrepareMsgCode =>
      match iH with
      | none => none
      | some h =>
        if impeachPrepareCertificate d h then
          some (⟨some (Sum.inl h), action.broadcastMsgAction, dataType.headerType,
                 msgCode.impeachCommitMsgCode, ConsState.ImpeachPrepared, none⟩, d)
        else
          match impeachPrepareMsgPlus svc d h with
          | (some e, d1) =>
            some (⟨none, action.noAction, dataType.noType, msgCode.noMsgCode,
                   ConsState.Idle, some e⟩, d1)
          | (none, d1) =>
            some (⟨some inp, action.noAction, dataType.noType, msgCode.noMsgCode,
                   ConsState.Idle, none⟩, d1)
    | msgCode.impeachPreprepareMsgCode =>
      some (⟨(proposeImpeachBlock svc).map Sum.inr, action.broadcastMsgAction,
             dataType.blockType, msgCode.impeachPrepareMsgCode,
             ConsState.ImpeachPreprepared, none⟩, d)
    | _ =>
      some (⟨none, action.noAction, dataType.noType, msgCode.noMsgCode,
             ConsState.Idle, some FsmError.wrongIdleInput⟩, d)
  | ConsState.Preprepared =>
    match msg with
    | msgCode.validateMsgCode =>
      some (⟨iB.map Sum.inr, action.insertBlockAction, dataType.blockType,
             msgCode.noMsgCode, ConsState.Idle, none⟩, d)
    | msgCode.commitMsgCode =>
      match iH with
      | none => none
      | some h =>
        if commitCertificate d h then
          match composeValidateMsg d h with
          | CvResult.panic _ => none
          | CvResult.err e =>
            some (⟨none, action.noAction, dataType.noType, msgCode.noMsgCode,
                   ConsState.Idle, some e⟩, d)
          | CvResult.ok b =>
            some (⟨some (Sum.inr b), action.broadcastAndInsertBlockAction,
                   dataType.blockType, msgCode.validateMsgCode, ConsState.Idle, none⟩, d)
        else
          match commitMsgPlus svc d h with
          | (some e, d1) =>
            some (⟨none, action.noAction, dataType.noType, msgCode.noMsgCode,
                   ConsState.Idle, some e⟩, d1)
          | (none, d1) =>
            some (⟨some inp, action.noAction, dataType.noType, msgCode.noMsgCode,
                   ConsState.Preprepared, none⟩, d1)
    | msgCode.prepareMsgCode =>
      match iH with
      | none => none
      | some h =>
        if prepareCertificate d h then
          match composeCommitMsg svc d h with
          | (Except.error e, d1) =>
            some (⟨none, action.noAction, dataType.noType, msgCode.noMsgCode,
                   ConsState.Preprepared, some e⟩, d1)
          | (Except.ok h2, d1) =>
            some (⟨some (Sum.inl h2), action.broadcastMsgAction, dataType.headerType,
                   msgCode.commitMsgCode, ConsState.Prepared, none⟩, d1)
        else
          match prepareMsgPlus svc d h with
          | (some e, d1) =>
            some (⟨none, action.noAction, dataType.noType, msgCode.noMsgCode,
                   ConsState.Preprepared, some e⟩, d1)
          | (none, d1) =>
            some (⟨some inp, action.noAction, dataType.noType, msgCode.noMsgCode,
                   ConsState.Preprepared, none⟩, d1)
    | msgCode.impeachValidateMsgCode =>
      some (⟨iB.map Sum.inr, action.insertBlockAction, dataType.blockType,
             msgCode.noMsgCode, ConsState.Idle, none⟩, d)
    | msgCode.impeachCommitMsgCode =>
      match iH with
      | none => none
      | some h =>
        if impeachCommitCertificate d h then
          match composeImpeachValidateMsg d h with
          | CvResult.panic _ => none
          | CvResult.err e =>
            some (⟨none, action.noAction, dataType.noType, msgCode.noMsgCode,
                   ConsState.Preprepared, some e⟩, d)
          | CvResult.ok b =>
            some (⟨some (Sum.inr b), action.broadcastAndInsertBlockAction,
                   dataType.blockType, msgCode.impeachValidateMsgCode, ConsState.Idle, none⟩, d)
        else
          match commitMsgPlus svc d h with
          | (some e, d1) =>
            some (⟨none, action.noAction, dataType.noType, msgCode.noMsgCode,
                   ConsState.Preprepared, some e⟩, d1)
          | (none, d1) =>
            some (⟨some inp, action.noAction, dataType.noType, msgCode.noMsgCode,
                   ConsState.Idle, none⟩, d1)
    | msgCode.impeachPrepareMsgCode =>
      match iH with
      | none => none
      | some h =>
        if impeachPrepareCertificate d h then
          some (⟨some (Sum.inl h), action.broadcastMsgAction, dataType.headerType,
                 msgCode.impeachCommitMsgCode, ConsState.ImpeachPrepared, none⟩, d)
        else
          match impeachPrepareMsgPlus svc d h with
          | (some e, d1) =>
            some (⟨none, action.noAction, dataType.noType, msgCode.noMsgCode,
                   ConsState.Preprepared, some e⟩, d1)
          | (none, d1) =>
            some (⟨some inp, action.noAction, dataType.noType, msgCode.noMsgCode,
                   ConsState.Preprepared, none⟩, d1)
    | msgCode.impeachPreprepareMsgCode =>
      some (⟨(proposeImpeachBlock svc).map Sum.inr, action.broadcastMsgAction,
             dataType.blockType, msgCode.impeachPrepareMsgCode,
             ConsState.ImpeachPreprepared, none⟩, d)
    | _ =>
      some (⟨none, action.noAction, dataType.noType, msgCode.noMsgCode,
             ConsState.Preprepared, some FsmError.wrongPrepreparedInput⟩, d)
  | ConsState.Prepared =>
    match msg with
    | msgCode.validateMsgCode =>
      some (⟨iB.map Sum.inr, action.insertBlockAction, dataType.blockType,
             msgCode.noMsgCode, ConsState.Idle, none⟩, d)
    | msgCode.commitMsgCode =>
      match iH with
      | none => none
      | some h =>
        if commitCertificate d h then
          match composeValidateMsg d h with
          | CvResult.panic _ => none
          | CvResult.err e =>
            some (⟨none, action.noAction, dataType.noType, msgCode.noMsgCode,
                   ConsState.Prepared, some e⟩, d)
          | CvResult.ok b =>
            some (⟨some (Sum.inr b), action.broadcastAndInsertBlockAction,
                   dataType.blockType, msgCode.validateMsgCode, ConsState.Idle, none⟩, d)
        else
          match commitMsgPlus svc d h with
          | (some e, d1) =>
            some (⟨none, action.noAction, dataType.noType, msgCode.noMsgCode,
                   ConsState.Prepared, some e⟩, d1)
          | (none, d1) =>
            some (⟨some inp, action.noAction, dataType.noType, msgCode.noMsgCode,
                   ConsState.Preprepared, none⟩, d1)
    | msgCode.impeachValidateMsgCode =>
      some (⟨iB.map Sum.inr, action.insertBlockAction, dataType.blockType,
             msgCode.noMsgCode, ConsState.Idle, none⟩, d)
    | msgCode.impeachCommitMsgCode =>
      match iH with
      | none => none
      | some h =>
        if impeachCommitCertificate d h then
          match composeImpeachValidateMsg d h with
          | CvResult.panic _ => none
          | CvResult.err e =>
            some (⟨none, action.noAction, dataType.noType, msgCode.noMsgCode,
                   ConsState.Prepared, some e⟩, d)
          | CvResult.ok b =>
            some (⟨some (Sum.inr b), action.broadcastAndInsertBlockAction,
                   dataType.blockType, msgCode.impeachValidateMsgCode, ConsState.Idle, none⟩, d)
        else
          match impeachCommitMsgPlus svc d h with
          | (some e, d1) =>
            some (⟨none, action.noAction, dataType.noType, msgCode.noMsgCode,
                   ConsState.Prepared, some e⟩, d1)
          | (none, d1) =>
            some (⟨some inp, action.noAction, dataType.noType, msgCode.noMsgCode,
                   ConsState.Prepared, none⟩, d1)
    | msgCode.impeachPrepareMsgCode =>
      match iH with
      | none => none
      | some h =>
        if impeachPrepareCertificate d h then
          some (⟨some (Sum.inl h), action.broadcastMsgAction, dataType.headerType,
                 msgCode.impeachCommitMsgCode, ConsState.ImpeachPrepared, none⟩, d)
        else
          match impeachPrepareMsgPlus svc d h with
          | (some e, d1) =>
            some (⟨none, action.noAction, dataType.noType, msgCode.noMsgCode,
                   ConsState.Prepared, some e⟩, d1)
          | (none, d1) =>
            some (⟨some inp, action.noAction, dataType.noType, msgCode.noMsgCode,
                   ConsState.Prepared, none⟩, d1)
    | msgCode.impeachPreprepareMsgCode =>
      some (⟨(proposeImpeachBlock svc).map Sum.inr, action.broadcastMsgAction,
             dataType.blockType, msgCode.impeachPrepareMsgCode,
             ConsState.ImpeachPreprepared, none⟩, d)
    | _ =>
      some (⟨none, action.noAction, dataType.noType, msgCode.noMsgCode,
             ConsState.Prepared, some FsmError.wrongPreparedInput⟩, d)
  | ConsState.ImpeachPreprepared =>
    match msg with
    | msgCode.impeachValidateMsgCode =>
      some (⟨iB.map Sum.inr, action.insertBlockAction, dataType.blockType,
             msgCode.noMsgCode, ConsState.Idle, none⟩, d)
    | msgCode.impeachCommitMsgCode =>
      match iH with
      | none => none
      | some h =>
        if impeachCommitCertificate d h then
          match composeImpeachValidateMsg d h with
          | CvResult.panic _ => none
          | CvResult.err e =>
            some (⟨none, action.noAction, dataType.noType, msgCode.noMsgCode,
                   ConsState.ImpeachPreprepared, some e⟩, d)
          | CvResult.ok b =>
            some (⟨some (Sum.inr b), action.broadcastAndInsertBlockAction,
                   dataType.blockType, msgCode.impeachValidateMsgCode, ConsState.Idle, none⟩, d)
        else
          match impeachCommitMsgPlus svc d h with
          | (some e, d1) =>
            some (⟨none, action.noAction, dataType.noType, msgCode.noMsgCode,
                   ConsState.ImpeachPreprepared, some e⟩, d1)
          | (none, d1) =>
            some (⟨some inp, action.noAction, dataType.noType, msgCode.noMsgCode,
                   ConsState.ImpeachPreprepared, none⟩, d1)
    | msgCode.impeachPrepareMsgCode =>
      match iH with
      | none => none
      | some h =>
        if impeachPrepareCertificate d h then
          some (⟨some (Sum.inl h), action.broadcastMsgAction, dataType.headerType,
                 msgCode.impeachCommitMsgCode, ConsState.ImpeachPrepared, none⟩, d)
        else
          match impeachPrepareMsgPlus svc d h with
          | (some e, d1) =>
            some (⟨none, action.noAction, dataType.noType, msgCode.noMsgCode,
                   ConsState.ImpeachPreprepared, some e⟩, d1)
          | (none, d1) =>
            some (⟨some inp, action.noAction, dataType.noType, msgCode.noMsgCode,
                   ConsState.ImpeachPreprepared, none⟩, d1)
    | _ =>
      some (⟨none, action.noAction, dataType.noType, msgCode.noMsgCode,
             ConsState.ImpeachPreprepared, some FsmError.wrongImpeachPrepreparedInput⟩, d)
  | ConsState.ImpeachPrepared =>
    match msg with
    | msgCode.impeachValidateMsgCode =>
      some (⟨iB.map Sum.inr, action.insertBlockAction, dataType.blockType,
             msgCode.noMsgCode, ConsState.Idle, none⟩, d)
    | msgCode.impeachCommitMsgCode =>
      match iH with
      | none => none
      | some h =>
        if impeachCommitCertificate d h then
          match composeImpeachValidateMsg d h with
          | CvResult.panic _ => none
          | CvResult.err e =>
            some (⟨none, action.noAction, dataType.noType, msgCode.noMsgCode,
                   ConsState.ImpeachPrepared, some e⟩, d)
          | CvResult.ok b =>
            some (⟨some (Sum.inr b), action.broadcastAndInsertBlockAction,
                   dataType.blockType, msgCode.impeachValidateMsgCode, ConsState.Idle, none⟩, d)
        else
          match impeachCommitMsgPlus svc d h with
          | (some e, d1) =>
            some (⟨none, action.noAction, dataType.noType, msgCode.noMsgCode,
                   ConsState.ImpeachPrepared, some e⟩, d1)
          | (none, d1) =>
            some (⟨some inp, action.noAction, dataType.noType, msgCode.noMsgCode,
                   ConsState.ImpeachPrepared, none⟩, d1)
    | _ =>
      some (⟨none, action.noAction, dataType.noType, msgCode.noMsgCode,
             ConsState.ImpeachPrepared, some FsmError.wrongPreparedInput⟩, d)

/-- `fsm`: the input type switch (`input.(*types.Header)` /
`input.(*types.Block)` type assertions panic on a mismatch, modelled as
`none`), followed by the state dispatch. The unexpected-type default
returns `errFsmWrongDataType` with next state Idle, as in the source. -/
def fsm (svc : DporService) (d : SmData) (input : GoVal)
    (inputType : dataType) (msg : msgCode) (state : ConsState) :
    Option (FsmTuple × SmData) :=
  match inputType with
  | dataType.headerType =>
    match input with
    | Sum.inl h => fsmBody svc d input (some h) none msg state
    | Sum.inr _ => none
  | dataType.blockType =>
    match input with
    | Sum.inr b => fsmBody svc d input none (some b) msg state
    | Sum.inl _ => none
  | dataType.impeachBlockType =>
    match input with
    | Sum.inr b => fsmBody svc d input none (some b) msg state
    | Sum.inl _ => none
  | dataType.noType =>
    some (⟨none, action.noAction, dataType.noType, msgCode.noMsgCode,
           ConsState.Idle, some FsmError.wrongDataType⟩, d)

/-- `rpt.Rpt`: a reputation entry — (address, signed 64-bit score). -/
structure RptItem where
  address : Address
  rpt : Int
deriving DecidableEq, Repr

/-- Ascending insertion by score, used to realize the sort. -/
def rptInsert (x : RptItem) : List RptItem → List RptItem
  | [] => [x]
  | y :: ys => if x.rpt ≤ y.rpt then x :: y :: ys else y :: rptInsert x ys

/-- Modelled from the spec: package `rpt` (the `RptList` ordering that
`sort.Sort` consults) is not under `src/`; per the spec's data model,
"comparisons are defined over score (ascending)", so `sort.Sort(rpts)`
is realized as an insertion sort ascending by score. -/
def sortRpts (l : List RptItem) : List RptItem :=
  l.foldr rptInsert []

/-- `findHit`: first index whose prefix sum reaches the drawn value,
falling back to the last index. -/
def findHit (hit : Int) (hitSums : List Int) : Nat :=
  match hitSums.findIdx? (fun x => hit ≤ x) with
  | some idx => idx
  | none => hitSums.length - 1

/-- `sumOfFirstN`: prefix sums of the scores and the total sum. -/
def sumOfFirstN (rpts : List RptItem) : List Int × Int :=
  rpts.foldl (fun acc r => (acc.1 ++ [acc.2 + r.rpt], acc.2 + r.rpt)) ([], 0)

/-- Failure modes of the selection loop: the Go panic of
`rand.Int63n(n)` for `n <= 0`, the panic of indexing `rpts[resultIdx]`
out of range, and exhaustion of the loop fuel (the Go `for seats > 0`
loop redraws without bound; the fuel bounds how many draws the model is
allowed to inspect). -/
inductive ElectErr where
  | panicInt63n
  | panicIndex
  | outOfFuel
deriving DecidableEq, Repr

/-- The redraw loop of `randomSelectByRpt`. Modelled from the spec: the
deterministic PRNG (`rand.New(rand.NewSource(seed))`, from Go's standard
library, not under `src/`) is abstracted as a stream of draws
`stream : Nat → Nat`, consumed at cursor `k`; `Int63n(sum)` yields
`stream k % sum`, which is uniform over `[0, sum)` exactly when the
stream is. The loop records the selected indices (the keys of Go's
`selected` map) alongside the addresses it appends to `result`. -/
def selectLoop (stream : Nat → Nat) (rpts : List RptItem) (sums : List Int) (sum : Int) :
    Nat → Nat → Nat → List Nat → List (Nat × Address) →
    Except ElectErr (List (Nat × Address) × Nat)
  | fuel, k, seats, selected, acc =>
    match seats with
    | 0 => Except.ok (acc, k)
    | seats' + 1 =>
      match fuel with
      | 0 => Except.error ElectErr.outOfFuel
      | fuel' + 1 =>
        if sum ≤ 0 then Except.error ElectErr.panicInt63n
        else
          let randI : Int := (stream k : Int) % sum
          let resultIdx := findHit randI sums
          if resultIdx ∈ selected then
            selectLoop stream rpts sums sum fuel' (k + 1) (seats' + 1) selected acc
          else
            match rpts.get? resultIdx with
            | none => Except.error ElectErr.panicIndex
            | some r =>
              selectLoop stream rpts sums sum fuel' (k + 1) seats'
                (resultIdx :: selected) (acc ++ [(resultIdx, r.address)])

/-- `randomSelectByRpt`: sort the partition, compute prefix sums, run
the redraw loop for `seats` slots. Returns the (index, address) picks in
selection order together with the advanced stream cursor (the Go code
shares one PRNG across both partitions). -/
def randomSelectByRpt (stream : Nat → Nat) (k : Nat) (rpts : List RptItem)
    (seats : Nat) (fuel : Nat) : Except ElectErr (List (Nat × Address) × Nat) :=
  let sorted := sortRpts rpts
  let (sums, sum) := sumOfFirstN sorted
  selectLoop stream sorted sums sum fuel k seats [] []

/-- `Elect2`: precondition violations return the empty committee (no
error); otherwise sort, split at `lowRptCount`, and run the weighted
selection over the low then the high partition with the shared random
stream, concatenating low-first. -/
def Elect2 (stream : Nat → Nat) (fuel : Nat) (rpts : List RptItem)
    (totalSeats lowRptCount lowRptSeats : Nat) : Except ElectErr (List Address) :=
  if lowRptCount > rpts.length ∨ lowRptSeats > totalSeats ∨
      totalSeats > rpts.length ∨ lowRptCount < lowRptSeats then
    Except.ok []
  else
    let sorted := sortRpts rpts
    let lowRpts := sorted.take lowRptCount
    let highRpts := sorted.drop lowRptCount
    match randomSelectByRpt stream 0 lowRpts lowRptSeats fuel with
    | Except.error e => Except.error e
    | Except.ok (lowElected, k1) =>
      match randomSelectByRpt stream k1 highRpts (totalSeats - lowRptSeats) fuel with
      | Except.error e => Except.error e
      | Except.ok (highElected, _) =>
        Except.ok (lowElected.map (·.2) ++ highElected.map (·.2))

/-- Errors surfaced by `FundForRNode` (`admission.go`): a failure to
construct the contract binding, an error from the `IsRnode` query, an
error from submitting `JoinRnode`, and `errNoEnoughMoney`. -/
inductive FundError where
  | contractBindErr
  | rnodeQueryErr
  | joinTxErr
  | noEnoughMoney
deriving DecidableEq, Repr

/-- The environment one `FundForRNode` call observes: whether the
contract binding constructs, whether the `IsRnode` query errors and its
answer, the on-chain balance, the `minRnodeFund` threshold
(`RNodeMinFundReq * Cpc`, from the `configs` package), and whether the
`JoinRnode` submission succeeds. Held fixed across a sequence of calls
made while no external event (receipt, balance change) intervenes. -/
structure FundEnv where
  bindOk : Bool
  queryErr : Bool
  isRnode : Bool
  balance : Nat
  minRnodeFund : Nat
  joinOk : Bool
deriving DecidableEq, Repr

/-- Result of one `FundForRNode` call: the returned error (`none` =
success) and whether this call submitted a `JoinRnode` transaction. -/
structure FundOut where
  err : Option FundError
  submitted : Bool
deriving DecidableEq, Repr

/-- `FundForRNode`: return success at once while the atomic
`sendingFund` flag is set; otherwise query RNode membership, compare the
balance against `minRnodeFund`, and on success submit one `JoinRnode`
transaction and set the flag (the spawned receipt watcher, which
eventually clears the flag, is outside the modelled window). The second
component is the flag after the call. -/
def FundForRNode (env : FundEnv) (sendingFund : Bool) : FundOut × Bool :=
  if sendingFund then
    ({ err := none, submitted := false }, sendingFund)
  else if !env.bindOk then
    ({ err := some FundError.contractBindErr, submitted := false }, sendingFund)
  else if env.queryErr then
    ({ err := some FundError.rnodeQueryErr, submitted := false }, sendingFund)
  else if env.isRnode then
    ({ err := none, submitted := false }, sendingFund)
  else if env.minRnodeFund ≤ env.balance then
    if env.joinOk then
      ({ err := none, submitted := true }, true)
    else
      ({ err := some FundError.joinTxErr, submitted := false }, sendingFund)
  else
    ({ err := some FundError.noEnoughMoney, submitted := false }, sendingFund)

/-- `N` serialized `FundForRNode` calls with no watcher interleaving:
returns (number of `JoinRnode` submissions, the per-call returned
errors, the final flag). -/
def runFundCalls (env : FundEnv) : Nat → Bool → Nat × List (Option FundError) × Bool
  | 0, s => (0, [], s)
  | n + 1, s =>
    let (out, s1) := FundForRNode env s
    let (c, es, sf) := runFundCalls env n s1
    ((if out.submitted then 1 else 0) + c, out.err :: es, sf)

/-- A concrete header at height 5 (three filled signature slots, one
empty), used to instantiate theorems. -/
def cH5 : Header :=
  { number := 5, hash := 50, validators := [1, 2, 3, 4],
    sigs := [some 11, some 12, some 13, none] }

/-- A concrete header at height 6. -/
def cH6 : Header :=
  { number := 6, hash := 60, validators := [1, 2, 3, 4],
    sigs := [some 21, some 22, some 23, none] }

/-- A concrete impeach block returned by the concrete service. -/
def cImpeach : Block :=
  { header := { number := 7, hash := 70, validators := [1, 2, 3, 4],
                sigs := [none, none, none, none] },
    payload := 0 }

/-- A concrete chain service: blocks with payload 0 validate; signature
recovery reads the first three validators and the filled slots; the
validator committee is `[1, 2, 3, 4]` at every height; signing is the
identity. -/
def cSvc : DporService :=
  { validateBlock := fun b => b.payload == 0
    ecrecoverSigs := fun h _ => Except.ok (h.validators.take 3, h.sigs.filterMap id)
    validatorsOf := fun _ => [1, 2, 3, 4]
    signHeader := fun h _ => h
    createImpeachBlock := some cImpeach }

/-- Concrete FSM data: empty signature maps, `f = 1` (quorum 3), empty
cache, last-seen height 5. -/
def cD0 : SmData :=
  { prepareSigState := [], commitSigState := [], f := 1, bcache := [], lastHeight := 5 }

/-- A concrete block that passes `ValidateBlock`. -/
def cBlk : Block := { header := cH6, payload := 0 }

/-- A concrete block that fails `ValidateBlock`. -/
def cBlkBad : Block := { header := cH6, payload := 1 }

/-- Claim C10: the impeach-phase operations are definitionally the
normal-phase operations on the same two signature maps —
`impeachPrepareCertificate = prepareCertificate`,
`impeachCommitCertificate = commitCertificate`,
`impeachPrepareMsgPlus = prepareMsgPlus`,
`impeachCommitMsgPlus = commitMsgPlus`,
`composeImpeachValidateMsg = composeValidateMsg` — so signatures
accumulated through either path count toward both families of
certificates. -/
theorem impeach_ops_eq_normal_ops :
    (∀ d h, impeachPrepareCertificate d h = prepareCertificate d h) ∧
    (∀ d h, impeachCommitCertificate d h = commitCertificate d h) ∧
    (∀ svc d h, impeachPrepareMsgPlus svc d h = prepareMsgPlus svc d h) ∧
    (∀ svc d h, impeachCommitMsgPlus svc d h = commitMsgPlus svc d h) ∧
    (∀ d h, composeImpeachValidateMsg d h = composeValidateMsg d h) ∧
    (∀ d h, (impeachCommitCertificate d h = true ↔ commitCertificate d h = true) ∧
            (impeachPrepareCertificate d h = true ↔ prepareCertificate d h = true)) :=
  ⟨fun _ _ => rfl, fun _ _ => rfl, fun _ _ _ => rfl, fun _ _ _ => rfl,
   fun _ _ => rfl, fun _ _ => ⟨Iff.rfl, Iff.rfl⟩⟩

/-- Claim C2, counterexample: in state ImpeachPreprepared a `validate`
block message is NOT accepted — the FSM returns the input-class error
for that state and stays in ImpeachPreprepared (the claim asserts
acceptance, an insert action and next state Idle in every state). -/
theorem validate_rejected_in_impeach_state :
    fsm cSvc cD0 (Sum.inr cBlk) dataType.blockType msgCode.validateMsgCode
        ConsState.ImpeachPreprepared =
      some (⟨none, action.noAction, dataType.noType, msgCode.noMsgCode,
             ConsState.ImpeachPreprepared, some FsmError.wrongImpeachPrepreparedInput⟩, cD0) ∧
    ConsState.ImpeachPreprepared ≠ ConsState.Idle := by
  exact ⟨rfl, by decide⟩

/-- Claim C2 (amended): a `validate` block message is accepted — no
error, insert action, next state Idle — in states Idle, Preprepared and
Prepared; in ImpeachPreprepared and ImpeachPrepared it is rejected with
that state's input-class error and the state is unchanged (the
ImpeachPrepared arm reuses `errFsmWrongPreparedInput`). -/
theorem validate_routes_to_idle (svc : DporService) (d : SmData) (b : Block) :
    (∀ st : ConsState,
      st = ConsState.Idle ∨ st = ConsState.Preprepared ∨ st = ConsState.Prepared →
      fsm svc d (Sum.inr b) dataType.blockType msgCode.validateMsgCode st =
        some (⟨some (Sum.inr b), action.insertBlockAction, dataType.blockType,
               msgCode.noMsgCode, ConsState.Idle, none⟩, d)) ∧
    fsm svc d (Sum.inr b) dataType.blockType msgCode.validateMsgCode
        ConsState.ImpeachPreprepared =
      some (⟨none, action.noAction, dataType.noType, msgCode.noMsgCode,
             ConsState.ImpeachPreprepared, some FsmError.wrongImpeachPrepreparedInput⟩, d) ∧
    fsm svc d (Sum.inr b) dataType.blockType msgCode.validateMsgCode
        ConsState.ImpeachPrepared =
      some (⟨none, action.noAction, dataType.noType, msgCode.noMsgCode,
             ConsState.ImpeachPrepared, some FsmError.wrongPreparedInput⟩, d) := by
  refine ⟨fun st hst => ?_, rfl, rfl⟩
  rcases hst with h | h | h <;> subst h <;> rfl

/-- Witness for `validate_routes_to_idle` at the concrete service, data
and block, in state Idle. -/
theorem validate_routes_to_idle_witness :
    fsm cSvc cD0 (Sum.inr cBlk) dataType.blockType msgCode.validateMsgCode ConsState.Idle =
      some (⟨some (Sum.inr cBlk), action.insertBlockAction, dataType.blockType,
             msgCode.noMsgCode, ConsState.Idle, none⟩, cD0) :=
  (validate_routes_to_idle cSvc cD0 cBlk).1 ConsState.Idle (Or.inl rfl)

/-- Claim C3, counterexample: in state Prepared, a `commit` header whose
commit certificate does not hold and whose sig-plus succeeds moves the
FSM to Preprepared, not Prepared as the claim states. -/
theorem prepared_commit_noncert_regresses :
    commitCertificate cD0 cH5 = false ∧
    (fsm cSvc cD0 (Sum.inl cH5) dataType.headerType msgCode.commitMsgCode
        ConsState.Prepared).map (fun r => (r.1.err, r.1.state)) =
      some (none, ConsState.Preprepared) ∧
    ConsState.Preprepared ≠ ConsState.Prepared := by
  refine ⟨rfl, rfl, by decide⟩

/-- Claim C3 (amended): in state Prepared, a `commit` header whose
commit certificate does not hold runs the commit sig-plus accumulator;
if the accumulator succeeds the next state is Preprepared (a regression,
not "stay"), and if it fails the state stays Prepared with the error
returned. -/
theorem prepared_commit_noncert_behavior (svc : DporService) (d : SmData) (h : Header)
    (hcert : commitCertificate d h = false) :
    fsm svc d (Sum.inl h) dataType.headerType msgCode.commitMsgCode ConsState.Prepared =
      (match commitMsgPlus svc d h with
       | (some e, d1) =>
         some (⟨none, action.noAction, dataType.noType, msgCode.noMsgCode,
                ConsState.Prepared, some e⟩, d1)
       | (none, d1) =>
         some (⟨some (Sum.inl h), action.noAction, dataType.noType, msgCode.noMsgCode,
                ConsState.Preprepared, none⟩, d1)) := by
  simp only [fsm, fsmBody, hcert, Bool.false_eq_true, if_false]

/-- Witness for `prepared_commit_noncert_behavior` at the concrete
inputs. -/
theorem prepared_commit_noncert_behavior_witness :
    fsm cSvc cD0 (Sum.inl cH5) dataType.headerType msgCode.commitMsgCode ConsState.Prepared =
      (match commitMsgPlus cSvc cD0 cH5 with
       | (some e, d1) =>
         some (⟨none, action.noAction, dataType.noType, msgCode.noMsgCode,
                ConsState.Prepared, some e⟩, d1)
       | (none, d1) =>
         some (⟨some (Sum.inl cH5), action.noAction, dataType.noType, msgCode.noMsgCode,
                ConsState.Preprepared, none⟩, d1)) :=
  prepared_commit_noncert_behavior cSvc cD0 cH5 rfl

/-- Claim C4, counterexample: in state Preprepared, an `impeachCommit`
header without an impeach commit certificate and with a succeeding
accumulator moves the FSM to Idle, not Preprepared as the claim
states. -/
theorem preprepared_impeach_commit_noncert_to_idle :
    impeachCommitCertificate cD0 cH5 = false ∧
    (fsm cSvc cD0 (Sum.inl cH5) dataType.headerType msgCode.impeachCommitMsgCode
        ConsState.Preprepared).map (fun r => (r.1.err, r.1.state)) =
      some (none, ConsState.Idle) ∧
    ConsState.Idle ≠ ConsState.Preprepared := by
  refine ⟨rfl, rfl, by decide⟩

/-- Claim C4 (amended): in state Preprepared, an `impeachCommit` header
without an impeach commit certificate runs `commitMsgPlus` (the
non-impeach accumulator name, which coincides with
`impeachCommitMsgPlus`); on success the next state is Idle, on failure
the state stays Preprepared with the error returned. -/
theorem preprepared_impeach_commit_noncert_behavior (svc : DporService) (d : SmData)
    (h : Header) (hcert : impeachCommitCertificate d h = false) :
    fsm svc d (Sum.inl h) dataType.headerType msgCode.impeachCommitMsgCode
        ConsState.Preprepared =
      (match commitMsgPlus svc d h with
       | (some e, d1) =>
         some (⟨none, action.noAction, dataType.noType, msgCode.noMsgCode,
                ConsState.Preprepared, some e⟩, d1)
       | (none, d1) =>
         some (⟨some (Sum.inl h), action.noAction, dataType.noType, msgCode.noMsgCode,
                ConsState.Idle, none⟩, d1)) := by
  simp only [fsm, fsmBody, hcert, Bool.false_eq_true, if_false]

/-- Witness for `preprepared_impeach_commit_noncert_behavior` at the
concrete inputs. -/
theorem preprepared_impeach_commit_noncert_behavior_witness :
    fsm cSvc cD0 (Sum.inl cH5) dataType.headerType msgCode.impeachCommitMsgCode
        ConsState.Preprepared =
      (match commitMsgPlus cSvc cD0 cH5 with
       | (some e, d1) =>
         some (⟨none, action.noAction, dataType.noType, msgCode.noMsgCode,
                ConsState.Preprepared, some e⟩, d1)
       | (none, d1) =>
         some (⟨some (Sum.inl cH5), action.noAction, dataType.noType, msgCode.noMsgCode,
                ConsState.Idle, none⟩, d1)) :=
  preprepared_impeach_commit_noncert_behavior cSvc cD0 cH5 rfl

/-- Claim C5, counterexample: at Idle, a `prePrepare` block failing
verification yields action `insertBlockAction` — insert only, not the
broadcast-and-insert the claim asserts (the impeachPrepare message code
is set, but the action component does not broadcast). -/
theorem faulty_preprepare_insert_only :
    verifyBlock cSvc cBlkBad = false ∧
    (fsm cSvc cD0 (Sum.inr cBlkBad) dataType.blockType msgCode.preprepareMsgCode
        ConsState.Idle).map (fun r => (r.1.act, r.1.state, r.1.err)) =
      some (action.insertBlockAction, ConsState.ImpeachPreprepared,
            some FsmError.faultyBlock) ∧
    action.insertBlockAction ≠ action.broadcastAndInsertBlockAction := by
  refine ⟨rfl, rfl, by decide⟩

/-- Claim C5 (amended): at Idle, a `prePrepare` block that fails
verification makes the FSM propose an impeach block, return it with the
insert-only action (`insertBlockAction`) and next-message code
impeachPrepare, move to ImpeachPreprepared, and surface the FaultyBlock
error. -/
theorem faulty_preprepare_behavior (svc : DporService) (d : SmData) (b : Block)
    (hver : verifyBlock svc b = false) :
    fsm svc d (Sum.inr b) dataType.blockType msgCode.preprepareMsgCode ConsState.Idle =
      some (⟨(proposeImpeachBlock svc).map Sum.inr, action.insertBlockAction,
             dataType.blockType, msgCode.impeachPrepareMsgCode,
             ConsState.ImpeachPreprepared, some FsmError.faultyBlock⟩, d) := by
  simp only [fsm, fsmBody, hver, Bool.false_eq_true, if_false]

/-- Witness for `faulty_preprepare_behavior` at the concrete inputs. -/
theorem faulty_preprepare_behavior_witness :
    fsm cSvc cD0 (Sum.inr cBlkBad) dataType.blockType msgCode.preprepareMsgCode
        ConsState.Idle =
      some (⟨(proposeImpeachBlock cSvc).map Sum.inr, action.insertBlockAction,
             dataType.blockType, msgCode.impeachPrepareMsgCode,
             ConsState.ImpeachPreprepared, some FsmError.faultyBlock⟩, cD0) :=
  faulty_preprepare_behavior cSvc cD0 cBlkBad rfl

/-- Claim C6, counterexample: with last-seen height 5, `composeCommit`
on a header of height exactly 5 succeeds — it does NOT return
BlockTooOld at equality, unlike `composePrepare`. -/
theorem compose_commit_equal_height_ok :
    cH5.number = cD0.lastHeight ∧
    (composeCommitMsg cSvc cD0 cH5).1 = Except.ok (cSvc.signHeader cH5 ConsState.Prepared) ∧
    (composeCommitMsg cSvc cD0 cH5).1 ≠ Except.error FsmError.blockTooOld := by
  refine ⟨rfl, rfl, by decide⟩

/-- Claim C6 (amended): `composeCommit` fails with BlockTooOld iff the
header's height is STRICTLY below the last-seen height (at equality it
succeeds), whereas `composePrepare` rejects height less-or-equal to the
last-seen height — the two guards differ at equality. -/
theorem compose_commit_height_guard (svc : DporService) (d : SmData) (h : Header) (b : Block) :
    ((composeCommitMsg svc d h).1 = Except.error FsmError.blockTooOld ↔
      h.number < d.lastHeight) ∧
    ((composePrepareMsg svc d b).1 = Except.error FsmError.blockTooOld ↔
      b.header.number ≤ d.lastHeight) := by
  constructor
  · by_cases hlt : h.number < d.lastHeight <;> simp [composeCommitMsg, hlt]
  · by_cases hle : b.header.number ≤ d.lastHeight <;> simp [composePrepareMsg, hle]

/-- Upserting a key absent from the map appends a fresh binding. -/
theorem sigStateUpsert_fresh (st : SigState) (a : Address) (item : BlockSigItem)
    (ha : a ∉ st.map Prod.fst) :
    sigStateUpsert st a item = st ++ [(a, item)] := by
  unfold sigStateUpsert
  rw [if_neg]
  intro hany
  rw [List.any_eq_true] at hany
  obtain ⟨p, hp, hpa⟩ := hany
  exact ha (List.mem_map.mpr ⟨p, hp, by simpa using hpa⟩)

/-- Merging pairwise-fresh, key-distinct (signer, sig) pairs grows the
map by exactly one binding per pair, every new binding carrying the
merged hash. -/
theorem mergeSigs_fresh (hash : BHash) :
    ∀ (pairs : List (Address × Sig)) (st : SigState),
      (pairs.map Prod.fst).Nodup →
      (∀ p ∈ pairs, p.1 ∉ st.map Prod.fst) →
      (mergeSigs st hash pairs).length = st.length + pairs.length ∧
      (∀ e ∈ mergeSigs st hash pairs, e ∈ st ∨ e.2.hash = hash) := by
  intro pairs
  induction pairs with
  | nil => intro st _ _; exact ⟨rfl, fun e he => Or.inl he⟩
  | cons p ps ih =>
    intro st hnd hfresh
    have hstep : mergeSigs st hash (p :: ps) =
        mergeSigs (st ++ [(p.1, ⟨hash, p.2⟩)]) hash ps := by
      unfold mergeSigs
      rw [List.foldl_cons, sigStateUpsert_fresh st p.1 _ (hfresh p (List.mem_cons_self p ps))]
    have hnd' : (ps.map Prod.fst).Nodup := (List.nodup_cons.mp hnd).2
    have hnotin : p.1 ∉ ps.map Prod.fst := (List.nodup_cons.mp hnd).1
    have hfresh' : ∀ q ∈ ps,
        q.1 ∉ ((st ++ [(p.1, ⟨hash, p.2⟩)] : SigState)).map Prod.fst := by
      intro q hq
      rw [List.map_append, List.mem_append]
      rintro (hin | hin)
      · exact hfresh q (List.mem_cons_of_mem p hq) hin
      · simp only [List.map_cons, List.map_nil, List.mem_singleton] at hin
        exact hnotin (hin ▸ List.mem_map.mpr ⟨q, hq, rfl⟩)
    obtain ⟨hlen, hmem⟩ := ih (st ++ [(p.1, ⟨hash, p.2⟩)]) hnd' hfresh'
    constructor
    · rw [hstep, hlen, List.length_append]
      simp [Nat.add_assoc, Nat.add_comm 1 ps.length]
    · intro e he
      rw [hstep] at he
      rcases hmem e he with hin | hh
      · rcases List.mem_append.mp hin with h1 | h2
        · exact Or.inl h1
        · right
          simp only [List.mem_singleton] at h2
          rw [h2]
      · exact Or.inr hh

/-- Claim C1 (amended): processing a strictly greater height clears both
signature maps at that moment; but the sig-plus accumulators perform no
height guard, so a later `commitMsgPlus` on a header of height ≤ the
last-seen height succeeds (given recoverable signatures whose signers
are all validators), re-inserts those signatures into the live commit
map, and subsequent certificate evaluations for that old header count
them — reaching a commit certificate as soon as 2f+1 distinct signers
are re-admitted. -/
theorem old_height_sigs_revive :
    (∀ (d : SmData) (n : Nat), d.lastHeight < n →
      (refreshWhenNewerHeight d n).prepareSigState = [] ∧
      (refreshWhenNewerHeight d n).commitSigState = [] ∧
      (refreshWhenNewerHeight d n).lastHeight = n) ∧
    (∀ (svc : DporService) (d : SmData) (h : Header)
        (signers : List Address) (sigs : List Sig),
      h.number ≤ d.lastHeight →
      svc.ecrecoverSigs h ConsState.Prepared = Except.ok (signers, sigs) →
      (∀ s ∈ signers, s ∈ svc.validatorsOf h.number) →
      signers.Nodup →
      signers.length = sigs.length →
      d.commitSigState = [] →
      commitMsgPlus svc d h =
        (none, { d with commitSigState := mergeSigs [] h.hash (signers.zip sigs) }) ∧
      (commitCertificate (commitMsgPlus svc d h).2 h = true ↔
        2 * d.f + 1 ≤ signers.length)) := by
  constructor
  · intro d n hlt
    simp [refreshWhenNewerHeight, hlt]
  · intro svc d h signers sigs hle hrec hmem hnd hlen hempty
    have hrefresh : refreshWhenNewerHeight d h.number = d := by
      simp [refreshWhenNewerHeight, Nat.not_lt.mpr hle]
    have hall : signers.all (fun s => (svc.validatorsOf h.number).contains s) = true := by
      rw [List.all_eq_true]
      intro s hs
      simpa using hmem s hs
    have heq : commitMsgPlus svc d h =
        (none, { d with commitSigState := mergeSigs [] h.hash (signers.zip sigs) }) := by
      simp only [commitMsgPlus, hrefresh, hrec, hall, if_true, hempty]
    refine ⟨heq, ?_⟩
    rw [heq]
    have hfst : (signers.zip sigs).map Prod.fst = signers :=
      List.map_fst_zip signers sigs (Nat.le_of_eq hlen)
    have hndz : ((signers.zip sigs).map Prod.fst).Nodup := by rw [hfst]; exact hnd
    obtain ⟨hlenM, hmemM⟩ :=
      mergeSigs_fresh h.hash (signers.zip sigs) [] hndz (by intro p _ hp; simp at hp)
    have hfilter : (mergeSigs [] h.hash (signers.zip sigs)).filter
        (fun p => p.2.hash == h.hash) = mergeSigs [] h.hash (signers.zip sigs) := by
      rw [List.filter_eq_self]
      intro e he
      rcases hmemM e he with hin | hh
      · exact absurd hin (List.not_mem_nil e)
      · simpa using hh
    have hlenz : (signers.zip sigs).length = signers.length := by
      rw [List.length_zip, hlen, Nat.min_self]
    simp only [commitCertificate, hfilter, hlenM, List.length_nil, Nat.zero_add, hlenz,
      decide_eq_true_eq]

/-- Claim C1, counterexample: with last-seen height 5, processing a
commit sig-plus at height 6 triggers the monotonic reset, yet a
subsequent sig-plus on the height-5 header succeeds and the following
commit-certificate evaluation for that old header counts its three
re-admitted signatures (f = 1, quorum 3). -/
theorem old_sigs_counted_after_reset :
    cH6.number = cD0.lastHeight + 1 ∧
    cH5.number ≤ cD0.lastHeight ∧
    (commitMsgPlus cSvc cD0 cH6).1 = none ∧
    (commitMsgPlus cSvc (commitMsgPlus cSvc cD0 cH6).2 cH5).1 = none ∧
    commitCertificate (commitMsgPlus cSvc (commitMsgPlus cSvc cD0 cH6).2 cH5).2 cH5 = true := by
  refine ⟨rfl, by decide, rfl, rfl, rfl⟩

/-- Concrete FSM data just after a reset to height 6. -/
def cD6 : SmData :=
  { prepareSigState := [], commitSigState := [], f := 1, bcache := [], lastHeight := 6 }

/-- Witness for `old_height_sigs_revive` at the concrete service, a
post-reset state at height 6 and the old height-5 header. -/
theorem old_height_sigs_revive_witness :
    commitMsgPlus cSvc cD6 cH5 =
      (none, { cD6 with commitSigState := mergeSigs [] cH5.hash ([1, 2, 3].zip [11, 12, 13]) }) ∧
    (commitCertificate (commitMsgPlus cSvc cD6 cH5).2 cH5 = true ↔
      2 * cD6.f + 1 ≤ [1, 2, 3].length) :=
  old_height_sigs_revive.2 cSvc cD6 cH5 [1, 2, 3] [11, 12, 13]
    (by decide) rfl (by decide) (by decide) rfl rfl

/-- With the sending flag already set, every `FundForRNode` call is a
success no-op and the flag stays set. -/
theorem runFundCalls_flag_set (env : FundEnv) :
    ∀ n, runFundCalls env n true = (0, List.replicate n none, true) := by
  intro n
  induction n with
  | zero => rfl
  | succ m ih =>
    simp [runFundCalls, FundForRNode, ih, List.replicate]

/-- Claim C8: while a funding transaction is outstanding (flag set by
the first successful `JoinRnode` submission, not yet cleared by the
receipt watcher), N ≥ 1 serialized `FundForRNode` calls submit exactly
one `JoinRnode` transaction — the first call submits and sets the flag,
and every call (the first included) returns success. -/
theorem fund_idempotent_while_outstanding (env : FundEnv) (N : Nat)
    (hN : 1 ≤ N) (hbind : env.bindOk = true) (hq : env.queryErr = false)
    (hr : env.isRnode = false) (hbal : env.minRnodeFund ≤ env.balance)
    (hjoin : env.joinOk = true) :
    (FundForRNode env false).1.submitted = true ∧
    (runFundCalls env N false).1 = 1 ∧
    (∀ e ∈ (runFundCalls env N false).2.1, e = none) := by
  have hcall : FundForRNode env false = ({ err := none, submitted := true }, true) := by
    simp [FundForRNode, hbind, hq, hr, hjoin, hbal]
  obtain ⟨m, rfl⟩ : ∃ m, N = m + 1 := ⟨N - 1, (Nat.succ_pred_eq_of_pos hN).symm⟩
  have hrun : runFundCalls env (m + 1) false =
      (1, none :: List.replicate m none, true) := by
    simp [runFundCalls, hcall, runFundCalls_flag_set env m]
  refine ⟨by rw [hcall], by rw [hrun], ?_⟩
  rw [hrun]
  intro e he
  rcases List.mem_cons.mp he with h1 | h2
  · exact h1
  · exact List.eq_of_mem_replicate h2

/-- A concrete funding environment: binding and queries succeed, the
node is not yet an RNode, the balance covers the minimum fund, and the
`JoinRnode` submission succeeds. -/
def cFundEnv : FundEnv :=
  { bindOk := true, queryErr := false, isRnode := false,
    balance := 10, minRnodeFund := 5, joinOk := true }

/-- Witness for `fund_idempotent_while_outstanding`: three serialized
calls in the concrete environment submit exactly once. -/
theorem fund_idempotent_while_outstanding_witness :
    (FundForRNode cFundEnv false).1.submitted = true ∧
    (runFundCalls cFundEnv 3 false).1 = 1 ∧
    (∀ e ∈ (runFundCalls cFundEnv 3 false).2.1, e = none) :=
  fund_idempotent_while_outstanding cFundEnv 3 (by decide) rfl rfl rfl (by decide) rfl

/-- Membership in `List.enum` as an indexed lookup. -/
theorem mem_enum_get2 {α : Type} {l : List α} {i : Nat} {x : α} :
    (i, x) ∈ l.enum ↔ l.get? i = some x := by
  rw [List.mk_mem_enum_iff_getElem?, List.get?_eq_getElem?]

/-- If the make-up loop returns normally, then every listed validator
whose slot was empty at loop entry had a commit-state entry (indices
pairwise distinct, so later splices do not disturb unvisited slots). -/
theorem fillSigsLoop_ok_spec (st : SigState) (hash : BHash) :
    ∀ (pairs : List (Nat × Address)) (sigs sigs2 : List (Option Sig)),
      (pairs.map Prod.fst).Nodup →
      fillSigsLoop st hash pairs sigs = Except.ok sigs2 →
      ∀ p ∈ pairs, sigs.get? p.1 = some none → sigStateLookup st p.2 ≠ none := by
  intro pairs
  induction pairs with
  | nil => intro sigs sigs2 _ _ p hp; exact absurd hp (List.not_mem_nil p)
  | cons q rest ih =>
    obtain ⟨i, v⟩ := q
    intro sigs sigs2 hnd hok p hp hemp
    have hnd2 : (i :: rest.map Prod.fst).Nodup := by simpa using hnd
    have hnd' : (rest.map Prod.fst).Nodup := (List.nodup_cons.mp hnd2).2
    have hnotin : i ∉ rest.map Prod.fst := (List.nodup_cons.mp hnd2).1
    cases hgi : sigs.get? i with
    | none => simp only [fillSigsLoop, hgi] at hok; cases hok
    | some slot =>
      cases slot with
      | some s0 =>
        simp only [fillSigsLoop, hgi] at hok
        rcases List.mem_cons.mp hp with hpq | hpr
        · rw [hpq] at hemp
          rw [hemp] at hgi
          cases hgi
        · exact ih sigs sigs2 hnd' hok p hpr hemp
      | none =>
        cases hlk : sigStateLookup st v with
        | none => simp only [fillSigsLoop, hgi, hlk] at hok; cases hok
        | some item =>
          rcases List.mem_cons.mp hp with hpq | hpr
          · rw [hpq]
            simp [hlk]
          · cases hmatch : (item.hash == hash) with
            | true =>
              simp only [fillSigsLoop, hgi, hlk, hmatch, if_true] at hok
              have hne : p.1 ≠ i := by
                intro hcontra
                exact hnotin (hcontra ▸ List.mem_map.mpr ⟨p, hpr, rfl⟩)
              have hemp' : (sigs.set i (some item.sig)).get? p.1 = some none := by
                rw [List.get?_set_ne _ sigs (fun hcontra => hne hcontra.symm), hemp]
              exact ih _ sigs2 hnd' hok p hpr hemp'
            | false =>
              simp only [fillSigsLoop, hgi, hlk, hmatch, if_false] at hok
              exact ih sigs sigs2 hnd' hok p hpr hemp

/-- When every listed index is in range of the slot vector, the make-up
loop never raises the index panic (splicing preserves the length). -/
theorem fillSigsLoop_no_index (st : SigState) (hash : BHash) :
    ∀ (pairs : List (Nat × Address)) (sigs : List (Option Sig)),
      (∀ p ∈ pairs, p.1 < sigs.length) →
      fillSigsLoop st hash pairs sigs ≠ Except.error CvPanic.indexOutOfRange := by
  intro pairs
  induction pairs with
  | nil => intro sigs _ hcontra; cases hcontra
  | cons q rest ih =>
    obtain ⟨i, v⟩ := q
    intro sigs hbound
    have hirange : i < sigs.length := hbound (i, v) (List.mem_cons_self _ _)
    cases hgi : sigs.get? i with
    | none =>
      exact absurd (List.get?_eq_none.mp hgi) (Nat.not_le.mpr hirange)
    | some slot =>
      cases slot with
      | some s0 =>
        simp only [fillSigsLoop, hgi]
        exact ih sigs (fun p hp => hbound p (List.mem_cons_of_mem _ hp))
      | none =>
        cases hlk : sigStateLookup st v with
        | none =>
          simp only [fillSigsLoop, hgi, hlk]
          intro hcontra
          cases hcontra
        | some item =>
          cases hmatch : (item.hash == hash) with
          | true =>
            simp only [fillSigsLoop, hgi, hlk, hmatch, if_true]
            refine ih _ (fun p hp => ?_)
            rw [List.length_set]
            exact hbound p (List.mem_cons_of_mem _ hp)
          | false =>
            simp only [fillSigsLoop, hgi, hlk, hmatch, if_false]
            exact ih sigs (fun p hp => hbound p (List.mem_cons_of_mem _ hp))

/-- Claim C9: with the block in the cache and well-formed parallel slot
and validator sequences, `composeValidateMsg` panics (nil-map-entry
dereference) whenever some validator's slot is empty and the commit map
has no entry for that validator; it returns a block only when every
empty-slot validator has a commit-state entry. -/
theorem compose_validate_partiality (d : SmData) (h : Header) (blk : Block)
    (hcache : bcacheGet d.bcache h.hash = some blk)
    (hlen : blk.header.sigs.length = h.validators.length) :
    ((∃ i v, h.validators.get? i = some v ∧ blk.header.sigs.get? i = some none ∧
        sigStateLookup d.commitSigState v = none) →
      composeValidateMsg d h = CvResult.panic CvPanic.nilMapEntry) ∧
    (∀ b, composeValidateMsg d h = CvResult.ok b →
      ∀ i v, h.validators.get? i = some v → blk.header.sigs.get? i = some none →
        sigStateLookup d.commitSigState v ≠ none) := by
  have hnd : (h.validators.enum.map Prod.fst).Nodup := List.nodup_enum_map_fst _
  have hbound : ∀ p ∈ h.validators.enum, p.1 < blk.header.sigs.length := by
    intro p hp
    have hsome : h.validators.get? p.1 = some p.2 := mem_enum_get2.mp (by simpa using hp)
    rw [hlen]
    obtain ⟨hlt, -⟩ := List.get?_eq_some.mp hsome
    exact hlt
  constructor
  · rintro ⟨i, v, hv, hemp, hlk⟩
    have hmem : (i, v) ∈ h.validators.enum := mem_enum_get2.mpr hv
    cases hres : fillSigsLoop d.commitSigState h.hash h.validators.enum blk.header.sigs with
    | error p =>
      cases p with
      | indexOutOfRange =>
        exact absurd hres (fillSigsLoop_no_index _ _ _ _ hbound)
      | nilMapEntry =>
        simp only [composeValidateMsg, hcache, hres]
    | ok sigs2 =>
      exact absurd hlk
        (fillSigsLoop_ok_spec d.commitSigState h.hash h.validators.enum _ sigs2 hnd hres
          (i, v) hmem hemp)
  · intro b hok i v hv hemp
    cases hres : fillSigsLoop d.commitSigState h.hash h.validators.enum blk.header.sigs with
    | error p =>
      simp only [composeValidateMsg, hcache, hres] at hok
      cases hok
    | ok sigs2 =>
      have hmem : (i, v) ∈ h.validators.enum := mem_enum_get2.mpr hv
      exact fillSigsLoop_ok_spec d.commitSigState h.hash h.validators.enum _ sigs2 hnd hres
        (i, v) hmem hemp

/-- Membership through ascending insertion. -/
theorem mem_rptInsert (x y : RptItem) :
    ∀ l, y ∈ rptInsert x l ↔ y = x ∨ y ∈ l := by
  intro l
  induction l with
  | nil => simp [rptInsert]
  | cons z zs ih =>
    by_cases hle : x.rpt ≤ z.rpt
    · simp [rptInsert, hle]
    · simp only [rptInsert, if_neg hle, List.mem_cons, ih]
      tauto

/-- Ascending insertion preserves score-sortedness. -/
theorem rptInsert_pairwise (x : RptItem) :
    ∀ l, List.Pairwise (fun a b : RptItem => a.rpt ≤ b.rpt) l →
      List.Pairwise (fun a b : RptItem => a.rpt ≤ b.rpt) (rptInsert x l) := by
  intro l
  induction l with
  | nil => intro _; simp [rptInsert]
  | cons z zs ih =>
    intro hp
    rcases List.pairwise_cons.mp hp with ⟨hz, hzs⟩
    by_cases hle : x.rpt ≤ z.rpt
    · rw [rptInsert, if_pos hle]
      refine List.pairwise_cons.mpr ⟨?_, hp⟩
      intro w hw
      rcases List.mem_cons.mp hw with hwz | hwzs
      · exact hwz ▸ hle
      · exact le_trans hle (hz w hwzs)
    · rw [rptInsert, if_neg hle]
      refine List.pairwise_cons.mpr ⟨?_, ih hzs⟩
      intro w hw
      rcases (mem_rptInsert x w zs).mp hw with hwx | hwzs
      · exact hwx ▸ le_of_lt (lt_of_not_le hle)
      · exact hz w hwzs

/-- The modelled sort produces a score-ascending list. -/
theorem sortRpts_pairwise (l : List RptItem) :
    List.Pairwise (fun a b : RptItem => a.rpt ≤ b.rpt) (sortRpts l) := by
  induction l with
  | nil => simp [sortRpts]
  | cons z zs ih => exact rptInsert_pairwise z _ ih

/-- Insertion grows the length by one. -/
theorem rptInsert_length (x : RptItem) : ∀ l, (rptInsert x l).length = l.length + 1 := by
  intro l
  induction l with
  | nil => rfl
  | cons z zs ih =>
    by_cases hle : x.rpt ≤ z.rpt
    · rw [rptInsert, if_pos hle]; rfl
    · rw [rptInsert, if_neg hle, List.length_cons, ih, List.length_cons]

/-- The modelled sort preserves the length. -/
theorem sortRpts_length (l : List RptItem) : (sortRpts l).length = l.length := by
  induction l with
  | nil => rfl
  | cons z zs ih =>
    rw [sortRpts, List.foldr_cons]
    rw [sortRpts] at ih
    rw [rptInsert_length, ih, List.length_cons]

/-- Sorting an already score-ascending list is the identity. -/
theorem sortRpts_of_pairwise :
    ∀ l, List.Pairwise (fun a b : RptItem => a.rpt ≤ b.rpt) l → sortRpts l = l := by
  intro l
  induction l with
  | nil => intro _; rfl
  | cons z zs ih =>
    intro hp
    rcases List.pairwise_cons.mp hp with ⟨hz, hzs⟩
    rw [sortRpts, List.foldr_cons]
    rw [sortRpts] at ih
    rw [ih hzs]
    cases zs with
    | nil => rfl
    | cons w ws => rw [rptInsert, if_pos (hz w (List.mem_cons_self w ws))]

/-- Loop invariant of the redraw loop: on normal completion the output
extends the accumulator by exactly `seats` picks, the picked indices are
pairwise distinct, and every pick reads its address off the partition at
its index. -/
theorem selectLoop_ok_spec (stream : Nat → Nat) (rpts : List RptItem)
    (sums : List Int) (sum : Int) :
    ∀ (fuel k seats : Nat) (selected : List Nat) (acc : List (Nat × Address))
      (out : List (Nat × Address)) (k2 : Nat),
      selectLoop stream rpts sums sum fuel k seats selected acc = Except.ok (out, k2) →
      (∀ p ∈ acc, p.1 ∈ selected) →
      (acc.map Prod.fst).Nodup →
      (∀ p ∈ acc, ∃ r, rpts.get? p.1 = some r ∧ p.2 = r.address) →
      out.length = acc.length + seats ∧
      (out.map Prod.fst).Nodup ∧
      (∀ p ∈ out, ∃ r, rpts.get? p.1 = some r ∧ p.2 = r.address) := by
  intro fuel
  induction fuel with
  | zero =>
    intro k seats selected acc out k2 hok hsel hnd haddr
    cases seats with
    | zero =>
      rw [selectLoop] at hok
      injection hok with hpair
      injection hpair with ho hk
      exact ⟨by rw [← ho, Nat.add_zero], by rw [← ho]; exact hnd, by rw [← ho]; exact haddr⟩
    | succ s => rw [selectLoop] at hok; cases hok
  | succ f ih =>
    intro k seats selected acc out k2 hok hsel hnd haddr
    cases seats with
    | zero =>
      rw [selectLoop] at hok
      injection hok with hpair
      injection hpair with ho hk
      exact ⟨by rw [← ho, Nat.add_zero], by rw [← ho]; exact hnd, by rw [← ho]; exact haddr⟩
    | succ s =>
      rw [selectLoop] at hok
      by_cases hsum : sum ≤ 0
      · rw [if_pos hsum] at hok; cases hok
      · rw [if_neg hsum] at hok
        set idx := findHit ((stream k : Int) % sum) sums with hidx
        by_cases hmemsel : idx ∈ selected
        · rw [if_pos hmemsel] at hok
          exact ih (k + 1) (s + 1) selected acc out k2 hok hsel hnd haddr
        · rw [if_neg hmemsel] at hok
          cases hget : rpts.get? idx with
          | none => rw [hget] at hok; cases hok
          | some r =>
            rw [hget] at hok
            have hfresh : idx ∉ acc.map Prod.fst := by
              intro hmem
              obtain ⟨p, hp, hpe⟩ := List.mem_map.mp hmem
              exact hmemsel (hpe ▸ hsel p hp)
            have hsel' : ∀ p ∈ acc ++ [(idx, r.address)], p.1 ∈ idx :: selected := by
              intro p hp
              rcases List.mem_append.mp hp with h1 | h2
              · exact List.mem_cons_of_mem idx (hsel p h1)
              · simp only [List.mem_singleton] at h2
                rw [h2]
                exact List.mem_cons_self idx selected
            have hnd' : ((acc ++ [(idx, r.address)]).map Prod.fst).Nodup := by
              rw [List.map_append]
              rw [List.nodup_append]
              refine ⟨hnd, List.nodup_singleton idx, ?_⟩
              intro a ha hb
              simp only [List.map_cons, List.map_nil, List.mem_singleton] at hb
              exact hfresh (hb ▸ ha)
            have haddr' : ∀ p ∈ acc ++ [(idx, r.address)],
                ∃ q, rpts.get? p.1 = some q ∧ p.2 = q.address := by
              intro p hp
              rcases List.mem_append.mp hp with h1 | h2
              · exact haddr p h1
              · simp only [List.mem_singleton] at h2
                exact ⟨r, by rw [h2]; exact hget, by rw [h2]⟩
            obtain ⟨hl, hn, hq⟩ := ih (k + 1) s (idx :: selected) _ out k2 hok hsel' hnd' haddr'
            refine ⟨?_, hn, hq⟩
            rw [hl, List.length_append]
            simp
            omega

/-- On normal completion, one weighted selection returns exactly
`seats` picks with pairwise-distinct indices into the sorted partition,
each pick reading its address off the partition at its index. -/
theorem randomSelectByRpt_ok (stream : Nat → Nat) (k : Nat) (rpts : List RptItem)
    (seats fuel : Nat) (out : List (Nat × Address)) (k2 : Nat)
    (hok : randomSelectByRpt stream k rpts seats fuel = Except.ok (out, k2)) :
    out.length = seats ∧ (out.map Prod.fst).Nodup ∧
    (∀ p ∈ out, ∃ r, (sortRpts rpts).get? p.1 = some r ∧ p.2 = r.address) := by
  have h := selectLoop_ok_spec stream (sortRpts rpts)
    (sumOfFirstN (sortRpts rpts)).1 (sumOfFirstN (sortRpts rpts)).2
    fuel k seats [] [] out k2 hok
    (by intro p hp; exact absurd hp (List.not_mem_nil p))
    List.nodup_nil
    (by intro p hp; exact absurd hp (List.not_mem_nil p))
  obtain ⟨hl, hn, ha⟩ := h
  exact ⟨by rw [hl]; simp, hn, ha⟩

/-- Claim C7 (amended): under the stated preconditions, whenever the
two selection loops of `Elect2` run to completion (they can panic when a
partition's score total is non-positive and may redraw without bound),
the result is exactly `totalSeats` addresses, drawn at pairwise-distinct
indices of the score-sorted reputation list, low partition first; the
function is a pure map of (list, draw stream, seats), so identical
inputs yield the identical committee in the identical order. -/
theorem elect2_complete_spec (stream : Nat → Nat) (fuel : Nat) (rpts : List RptItem)
    (t l ls : Nat) (res : List Address)
    (h1 : l ≤ rpts.length) (h2 : ls ≤ t) (h3 : t ≤ rpts.length) (h4 : ls ≤ l)
    (hok : Elect2 stream fuel rpts t l ls = Except.ok res) :
    res.length = t ∧
    ∃ idxs : List Nat, idxs.Nodup ∧ idxs.length = t ∧
      (∀ i ∈ idxs, i < rpts.length) ∧
      res = idxs.map (fun i => (((sortRpts rpts).get? i).getD ⟨0, 0⟩).address) := by
  rw [Elect2, if_neg (by omega)] at hok
  dsimp only [] at hok
  cases hlow : randomSelectByRpt stream 0 ((sortRpts rpts).take l) ls fuel with
  | error e => rw [hlow] at hok; cases hok
  | ok prLow =>
    obtain ⟨lowSel, k1⟩ := prLow
    rw [hlow] at hok
    dsimp only [] at hok
    cases hhigh : randomSelectByRpt stream k1 ((sortRpts rpts).drop l) (t - ls) fuel with
    | error e => rw [hhigh] at hok; dsimp only [] at hok; cases hok
    | ok prHigh =>
      obtain ⟨highSel, k2⟩ := prHigh
      rw [hhigh] at hok
      dsimp only [] at hok
      injection hok with hres
      obtain ⟨hlL, hlN, hlA⟩ := randomSelectByRpt_ok _ _ _ _ _ _ _ hlow
      obtain ⟨hhL, hhN, hhA⟩ := randomSelectByRpt_ok _ _ _ _ _ _ _ hhigh
      have hsortedP := sortRpts_pairwise rpts
      have htake : sortRpts ((sortRpts rpts).take l) = (sortRpts rpts).take l :=
        sortRpts_of_pairwise _ (List.Pairwise.sublist (List.take_sublist l _) hsortedP)
      have hdrop : sortRpts ((sortRpts rpts).drop l) = (sortRpts rpts).drop l :=
        sortRpts_of_pairwise _ (List.Pairwise.sublist (List.drop_sublist l _) hsortedP)
      rw [htake] at hlA
      rw [hdrop] at hhA
      have hslen : (sortRpts rpts).length = rpts.length := sortRpts_length rpts
      have htlen : ((sortRpts rpts).take l).length = l := by
        rw [List.length_take, hslen]
        exact Nat.min_eq_left h1
      have hlowBound : ∀ p ∈ lowSel, p.1 < l := by
        intro p hp
        obtain ⟨r, hr, -⟩ := hlA p hp
        obtain ⟨hlt, -⟩ := List.get?_eq_some.mp hr
        rw [htlen] at hlt
        exact hlt
      have hhighBound : ∀ p ∈ highSel, p.1 < rpts.length - l := by
        intro p hp
        obtain ⟨r, hr, -⟩ := hhA p hp
        obtain ⟨hlt, -⟩ := List.get?_eq_some.mp hr
        rw [List.length_drop, hslen] at hlt
        exact hlt
      refine ⟨?_, lowSel.map Prod.fst ++ highSel.map (fun p => l + p.1), ?_, ?_, ?_, ?_⟩
      · rw [← hres, List.length_append, List.length_map, List.length_map, hlL, hhL]
        omega
      · rw [List.nodup_append]
        refine ⟨hlN, ?_, ?_⟩
        · have heq : highSel.map (fun p => l + p.1) =
              (highSel.map Prod.fst).map (fun i => l + i) := by
            rw [List.map_map]; rfl
          rw [heq]
          exact (List.nodup_map_iff_inj_on hhN).mpr
            (fun a _ b _ hab => Nat.add_left_cancel hab)
        · intro a ha hb
          obtain ⟨p, hp, hpe⟩ := List.mem_map.mp ha
          obtain ⟨q, hq, hqe⟩ := List.mem_map.mp hb
          have h5 : a < l := hpe ▸ hlowBound p hp
          omega
      · rw [List.length_append, List.length_map, List.length_map, hlL, hhL]
        omega
      · intro i hi
        rcases List.mem_append.mp hi with hiL | hiH
        · obtain ⟨p, hp, hpe⟩ := List.mem_map.mp hiL
          have := hlowBound p hp
          omega
        · obtain ⟨p, hp, hpe⟩ := List.mem_map.mp hiH
          have := hhighBound p hp
          omega
      · rw [← hres, List.map_append, List.map_map, List.map_map]
        congr 1
        · refine List.map_eq_map_iff.mpr ?_
          intro p hp
          obtain ⟨r, hr, hra⟩ := hlA p hp
          have hgs : (sortRpts rpts).get? p.1 = some r := by
            rw [← List.get?_take (hlowBound p hp)]
            exact hr
          simp only [Function.comp_apply, hgs, Option.getD_some]
          exact hra
        · refine List.map_eq_map_iff.mpr ?_
          intro p hp
          obtain ⟨r, hr, hra⟩ := hhA p hp
          have hgs : (sortRpts rpts).get? (l + p.1) = some r := by
            rw [← List.get?_drop]
            exact hr
          simp only [Function.comp_apply, hgs, Option.getD_some]
          exact hra

/-- Three reputation entries with strictly positive scores. -/
def cexRpts : List RptItem := [⟨10, 1⟩, ⟨11, 2⟩, ⟨12, 3⟩]

/-- A concrete draw stream (always 0). -/
def cexStream : Nat → Nat := fun _ => 0

/-- Claim C7, counterexample: with `rpts` of length 3 and strictly
positive scores, `totalSeats = 2`, `lowRptCount = 3`, `lowRptSeats = 1`
— all four stated preconditions hold — the high partition is empty while
one high seat remains, its score total is 0, and `rand.Int63n(0)` panics
instead of returning two addresses. -/
theorem elect2_panics_on_valid_preconditions :
    (3 ≤ cexRpts.length ∧ 1 ≤ 2 ∧ 2 ≤ cexRpts.length ∧ 1 ≤ 3) ∧
    (∀ r ∈ cexRpts, 0 < r.rpt) ∧
    Elect2 cexStream 10 cexRpts 2 3 1 = Except.error ElectErr.panicInt63n := by
  refine ⟨by decide, by decide, rfl⟩

/-- Five reputation entries with strictly positive scores, used to
witness a completed election. -/
def wRpts : List RptItem := [⟨10, 1⟩, ⟨11, 2⟩, ⟨12, 3⟩, ⟨13, 4⟩, ⟨14, 5⟩]

/-- The identity draw stream used by the witness run. -/
def wStream : Nat → Nat := fun k => k

/-- Witness for `elect2_complete_spec`: a concrete completed run with
`totalSeats = 3`, `lowRptCount = 2`, `lowRptSeats = 1` elects the
three-address committee `[10, 12, 13]`. -/
theorem elect2_complete_spec_witness :
    ([10, 12, 13] : List Address).length = 3 ∧
    ∃ idxs : List Nat, idxs.Nodup ∧ idxs.length = 3 ∧
      (∀ i ∈ idxs, i < wRpts.length) ∧
      ([10, 12, 13] : List Address) =
        idxs.map (fun i => (((sortRpts wRpts).get? i).getD ⟨0, 0⟩).address) :=
  elect2_complete_spec wStream 10 wRpts 3 2 1 [10, 12, 13]
    (by decide) (by decide) (by decide) (by decide) rfl

/-- A concrete header whose slot 1 is empty with a matching commit-state
entry, and whose slot 2 is empty with NO commit-state entry. -/
def cH9 : Header :=
  { number := 5, hash := 90, validators := [1, 2, 3, 4],
    sigs := [some 11, none, none, none] }

/-- The cached block for `cH9`. -/
def cBlk9 : Block := { header := cH9, payload := 0 }

/-- FSM data whose cache holds `cBlk9` and whose commit map has an entry
for validator 2 only. -/
def cD9 : SmData :=
  { prepareSigState := [], commitSigState := [(2, ⟨90, 42⟩)], f := 1,
    bcache := [(90, cBlk9)], lastHeight := 5 }

/-- Witness for `compose_validate_partiality`: at the concrete state the
make-up loop dereferences the absent commit-state entry of validator 3
(slot 2 is empty) and panics. -/
theorem compose_validate_partiality_witness :
    composeValidateMsg cD9 cH9 = CvResult.panic CvPanic.nilMapEntry :=
  (compose_validate_partiality cD9 cH9 cBlk9 rfl rfl).1 ⟨2, 3, rfl, rfl, rfl⟩

/-- Witness for `compose_commit_height_guard` at the concrete service,
data, header and block. -/
theorem compose_commit_height_guard_witness :
    ((composeCommitMsg cSvc cD0 cH5).1 = Except.error FsmError.blockTooOld ↔
      cH5.number < cD0.lastHeight) ∧
    ((composePrepareMsg cSvc cD0 cBlk).1 = Except.error FsmError.blockTooOld ↔
      cBlk.header.number ≤ cD0.lastHeight) :=
  compose_commit_height_guard cSvc cD0 cH5 cBlk
